import Mathlib

/-!
Verification development for the uDapp assistant widget
(`src/components/UranoWidget.tsx`, `src/lib/uassistantClient.ts`).

Calldata is modelled as the list of hex digits after the leading "0x"
(each digit a natural number below 16); a JavaScript string of length
`2 + n` such as "0x095ea7b3…" corresponds to a digit list of length `n`.
-/

namespace UDapp

/-- Big-endian base-16 digits of `n`, left-padded with zeros to exactly `k`
digits; models `n.toString(16).padStart(k, "0")` for `n < 16^k`. -/
def beDigits (k n : Nat) : List Nat :=
  (List.range k).map (fun i => n / 16 ^ (k - 1 - i) % 16)

/-- Value of a big-endian base-16 digit list; models `BigInt("0x" + s)` on a
hex string `s`. -/
def fromBeDigits (ds : List Nat) : Nat :=
  ds.foldl (fun acc d => acc * 16 + d) 0

/-- `encodeErc20Approve(spender, amount)` from `UranoWidget.tsx`:
selector `0x095ea7b3` then the 32-byte padded spender, then the 32-byte
padded amount. -/
def encodeErc20Approve (spender amount : Nat) : List Nat :=
  beDigits 8 0x095ea7b3 ++ beDigits 64 spender ++ beDigits 64 amount

/-- `encodeBalanceOf(owner)` from `UranoWidget.tsx`: selector `0x70a08231`
then the 32-byte padded owner. -/
def encodeBalanceOf (owner : Nat) : List Nat :=
  beDigits 8 0x70a08231 ++ beDigits 64 owner

/-- `encodeAllowance(owner, spender)` from `UranoWidget.tsx`: selector
`0xdd62ed3e` then the two 32-byte padded addresses. -/
def encodeAllowance (owner spender : Nat) : List Nat :=
  beDigits 8 0xdd62ed3e ++ beDigits 64 owner ++ beDigits 64 spender

/-- `decodeFirstUint256Arg(data)` from `UranoWidget.tsx`: requires
`data.length >= 10 + 64` (here: at least `8 + 64` digits after "0x"),
then parses `data.slice(10, 74)`, i.e. digits 8..71. The thrown
`Error("Invalid calldata (too short)")` is modelled as `none`. -/
def decodeFirstUint256Arg (data : List Nat) : Option Nat :=
  if data.length < 8 + 64 then none
  else some (fromBeDigits ((data.drop 8).take 64))

/-! ### Plan data model (`src/lib/uassistantClient.ts`, latest snapshot) -/

/-- `AssistantPlan.actionType` union. -/
inductive ActionType
  | STAKE | UNSTAKE | STAKE_ALL | UNSTAKE_ALL | BUY_USHARE | SELL_USHARE
  | VOTE | CLAIM_VESTING | QUESTION | UNSUPPORTED
  deriving DecidableEq

/-- `TxPreview`: one unsigned transaction intent.  `toAddr` models the
`to` field (a reserved word here): the 20-byte address as a number;
`data` is the calldata hex digits after "0x", `value` the decimal-string
value as a number. -/
structure TxPreview where
  chainId : Nat
  toAddr : Nat
  data : List Nat
  value : Nat
  deriving DecidableEq

/-- `AssistantPlan` from `src/lib/uassistantClient.ts`.  `txs` is the new
multi-tx field (optional), `tx` the legacy single transaction
(optional/null). -/
structure AssistantPlan where
  id : String
  actionType : ActionType
  interpretation : String
  userMessage : String
  warnings : List String
  txs : Option (List TxPreview)
  tx : Option TxPreview
  docsUrl : Option String
  supportEmail : Option String
  deriving DecidableEq

/-- `isActionablePlan` from `UranoWidget.tsx`: `if (!plan.tx) return false;`
then the two action-type checks.  Note it consults only the legacy `tx`
field, never `txs`. -/
def isActionablePlan (plan : AssistantPlan) : Bool :=
  if plan.tx.isNone then false
  else if plan.actionType = ActionType.QUESTION then false
  else if plan.actionType = ActionType.UNSUPPORTED then false
  else true

/-- The actionable predicate as the spec words it (for comparison with
`isActionablePlan`): at least one transaction — `txs` non-empty or legacy
`tx` present — and `actionType` neither QUESTION nor UNSUPPORTED. -/
def specActionable (plan : AssistantPlan) : Bool :=
  (decide ((plan.txs.getD []) ≠ []) || plan.tx.isSome) &&
  decide (plan.actionType ≠ ActionType.QUESTION) &&
  decide (plan.actionType ≠ ActionType.UNSUPPORTED)

/-- A STAKE plan carrying one transaction in the new `txs` field and a
null legacy `tx`. -/
def multiTxOnlyPlan : AssistantPlan :=
  { id := "p1", actionType := ActionType.STAKE, interpretation := "stake"
    userMessage := "stake", warnings := []
    txs := some [{ chainId := 84532, toAddr := 2, data := [], value := 0 }]
    tx := none, docsUrl := none, supportEmail := none }

/-- A plan with empty `txs` and null legacy `tx`. -/
def emptyTxPlan : AssistantPlan :=
  { id := "p2", actionType := ActionType.STAKE, interpretation := ""
    userMessage := "", warnings := [], txs := some [], tx := none
    docsUrl := none, supportEmail := none }

/-! ### Receipt polling (`waitForReceipt` in `UranoWidget.tsx`) -/

/-- `eth_getTransactionReceipt` result: optional `status` hex string
("0x1" success, "0x0" revert) and the transaction hash. -/
structure RpcReceipt where
  status : Option String
  transactionHash : Nat
  deriving DecidableEq

/-- Round `num / den` to the nearest integer, ties to even (IEEE-754
default rounding). -/
def roundNearestEven (num den : Nat) : Nat :=
  let q := num / den
  let r := num % den
  if 2 * r < den then q
  else if den < 2 * r then q + 1
  else if q % 2 = 0 then q else q + 1

/-- Fuel-based binary logarithm (structural recursion, so that kernel
evaluation can unfold it). -/
def log2fuel : Nat → Nat → Nat
  | 0, _ => 0
  | fuel + 1, n => if n < 2 then 0 else log2fuel fuel (n / 2) + 1

/-- Exact value of JavaScript `Math.floor(d * 1.15)` in binary64
arithmetic for integer `d`: the double `1.15` is
`5179139571476070 / 2^52`, the product is rounded to the nearest double
(ties to even) and then floored. -/
def jsFloorMul115 (d : Nat) : Nat :=
  let p := d * 5179139571476070
  let e := log2fuel 128 p - 52
  roundNearestEven p (2 ^ e) / 2 ^ (52 - e)

/-- `delayMs = Math.min(2000, Math.floor(delayMs * 1.15))` from
`waitForReceipt`. -/
def nextDelay (d : Nat) : Nat :=
  min 2000 (jsFloorMul115 d)

/-- The retry loop of `waitForReceipt`, over a poll oracle giving the
`eth_getTransactionReceipt` answer of each attempt (`none` = null
receipt).  Returns the result — first attempt index with its receipt, or
`Except.error ()` for the timeout throw — together with the list of
sleeps performed (in ms). -/
def waitForReceiptAux (poll : Nat → Option RpcReceipt) :
    Nat → Nat → Nat → Except Unit (Nat × RpcReceipt) × List Nat
  | 0, _, _ => (Except.error (), [])
  | fuel + 1, i, d =>
    match poll i with
    | some r => (Except.ok (i, r), [])
    | none =>
      let rest := waitForReceiptAux poll fuel (i + 1) (nextDelay d)
      (rest.1, d :: rest.2)

/-- `waitForReceipt` from `UranoWidget.tsx`: `maxTries = 60`, initial
delay 1200 ms. -/
def waitForReceipt (poll : Nat → Option RpcReceipt) :
    Except Unit (Nat × RpcReceipt) × List Nat :=
  waitForReceiptAux poll 60 0 1200

/-! ### Plan execution engine (`sendPlanToWallet` in `UranoWidget.tsx`)

The engine is modelled as a pure function from the plan and an
environment of oracles (wallet state, env-config addresses, wallet
`sendTransaction` answers per call, receipt-poll answers per attempt,
ERC-20 read results) to a result together with the trace of externally
visible actions, in the order the source performs them. -/

/-- One externally visible step of `sendPlanToWallet`. -/
inductive Action
  | switchChain (chainId : Nat)
  | sendTx (toAddr : Nat) (data : List Nat) (value : Nat)
  | receiptPoll (txHash : Nat) (attempt : Nat)
  | readCall (toAddr : Nat) (data : List Nat)
  | statusMsg (text : String)
  deriving DecidableEq

/-- The `throw new Error(...)` sites of `sendPlanToWallet` and its
helpers. -/
inductive ExecErr
  | noTransactions
  | noWallet
  | chainSwitchFailed
  | missingTokenEnv
  | missingUsdcEnv
  | malformedCalldata
  | unexpectedSendResult
  | receiptTimeout
  | approveReverted (status : String)
  | usdcApproveReverted (status : String)
  | insufficientBalance (bal need : Nat)
  | insufficientAllowance (allow need : Nat)
  | txReverted (status : String)
  deriving DecidableEq

/-- External collaborators of `sendPlanToWallet`. -/
structure ExecEnv where
  account : Option Nat
  walletChain : Option Nat
  switchChainOk : Bool
  uranoToken : Option Nat
  usdcToken : Option Nat
  sendTxResult : Nat → Option Nat
  pollReceipt : Nat → Nat → Option RpcReceipt
  balanceOfResult : Nat
  allowanceResult : Nat

/-- `MAX_UINT256 = 2n ** 256n - 1n`. -/
def MAX_UINT256 : Nat := 2 ^ 256 - 1

/-- The receipt status check `receipt.status && receipt.status !== "0x1"`:
yields the offending status when it is present, non-empty (JS truthiness)
and not `"0x1"`; in particular a receipt with absent status passes. -/
def receiptRevert (r : RpcReceipt) : Option String :=
  match r.status with
  | none => none
  | some s => if s = "" then none else if s = "0x1" then none else some s

/-- The `eth_getTransactionReceipt` attempts performed while polling hash
`h` for `n` attempts. -/
def pollTrace (h n : Nat) : List Action :=
  (List.range n).map (Action.receiptPoll h)

/-- The STAKE pre-approval block of `sendPlanToWallet`: env check, decode
of the stake amount from the planned tx's calldata, approval submission
for exactly that amount, receipt wait with revert check, then the
balance/allowance pre-flight of `preflightStake` (two `eth_call` reads
issued together and joined, balance checked first). -/
def stakePreApproval (env : ExecEnv) (tx : TxPreview) (owner : Nat) :
    Except ExecErr Unit × List Action :=
  match env.uranoToken with
  | none => (Except.error ExecErr.missingTokenEnv, [])
  | some token =>
    match decodeFirstUint256Arg tx.data with
    | none => (Except.error ExecErr.malformedCalldata, [])
    | some amt =>
      let t1 := [Action.statusMsg "Preparing approval…",
                 Action.sendTx token (encodeErc20Approve tx.toAddr amt) 0]
      match env.sendTxResult 0 with
      | none => (Except.error ExecErr.unexpectedSendResult, t1)
      | some h =>
        match waitForReceipt (env.pollReceipt h) with
        | (Except.error _, _) =>
          (Except.error ExecErr.receiptTimeout, t1 ++ pollTrace h 60)
        | (Except.ok (i, r), _) =>
          let t2 := t1 ++ pollTrace h (i + 1)
          match receiptRevert r with
          | some s => (Except.error (ExecErr.approveReverted s), t2)
          | none =>
            let t3 := t2 ++ [Action.statusMsg "Approval confirmed.",
              Action.readCall token (encodeBalanceOf owner),
              Action.readCall token (encodeAllowance owner tx.toAddr)]
            if env.balanceOfResult < amt then
              (Except.error (ExecErr.insufficientBalance env.balanceOfResult amt), t3)
            else if env.allowanceResult < amt then
              (Except.error (ExecErr.insufficientAllowance env.allowanceResult amt), t3)
            else (Except.ok (), t3)

/-- The BUY_USHARE pre-approval block of `sendPlanToWallet`: unlimited
(`MAX_UINT256`) USDC approval to the planned tx's target. -/
def buyUsharePreApproval (env : ExecEnv) (tx : TxPreview) :
    Except ExecErr Unit × List Action :=
  match env.usdcToken with
  | none => (Except.error ExecErr.missingUsdcEnv, [])
  | some usdc =>
    let t1 := [Action.statusMsg "Preparing USDC approval…",
               Action.sendTx usdc (encodeErc20Approve tx.toAddr MAX_UINT256) 0]
    match env.sendTxResult 0 with
    | none => (Except.error ExecErr.unexpectedSendResult, t1)
    | some h =>
      match waitForReceipt (env.pollReceipt h) with
      | (Except.error _, _) =>
        (Except.error ExecErr.receiptTimeout, t1 ++ pollTrace h 60)
      | (Except.ok (i, r), _) =>
        let t2 := t1 ++ pollTrace h (i + 1)
        match receiptRevert r with
        | some s => (Except.error (ExecErr.usdcApproveReverted s), t2)
        | none => (Except.ok (), t2 ++ [Action.statusMsg "USDC approval confirmed."])

/-- `sendPlanToWallet(plan)` from `UranoWidget.tsx`.  Note the source
reads only the legacy `plan.tx`: `if (!plan.tx) throw new Error("No
transaction to send.")` is its first statement, before the wallet check,
the chain switch and every network access. -/
def sendPlanToWallet (env : ExecEnv) (plan : AssistantPlan) :
    Except ExecErr Unit × List Action :=
  match plan.tx with
  | none => (Except.error ExecErr.noTransactions, [])
  | some tx =>
    match env.account with
    | none => (Except.error ExecErr.noWallet, [])
    | some owner =>
      let swTrace : List Action :=
        if env.walletChain = some tx.chainId then [] else [Action.switchChain tx.chainId]
      if env.walletChain ≠ some tx.chainId ∧ env.switchChainOk = false then
        (Except.error ExecErr.chainSwitchFailed, swTrace)
      else
        let pre : Except ExecErr Unit × List Action × Nat :=
          if plan.actionType = ActionType.STAKE then
            let p := stakePreApproval env tx owner
            (p.1, p.2, 1)
          else if plan.actionType = ActionType.BUY_USHARE then
            let p := buyUsharePreApproval env tx
            (p.1, p.2, 1)
          else (Except.ok (), [], 0)
        match pre with
        | (Except.error e, preTrace, _) => (Except.error e, swTrace ++ preTrace)
        | (Except.ok _, preTrace, idx) =>
          let t1 := swTrace ++ preTrace ++
            [Action.statusMsg "Preparing transaction…",
             Action.sendTx tx.toAddr tx.data tx.value]
          match env.sendTxResult idx with
          | none => (Except.error ExecErr.unexpectedSendResult, t1)
          | some h2 =>
            match waitForReceipt (env.pollReceipt h2) with
            | (Except.error _, _) =>
              (Except.error ExecErr.receiptTimeout, t1 ++ pollTrace h2 60)
            | (Except.ok (i, r), _) =>
              let t2 := t1 ++ pollTrace h2 (i + 1)
              match receiptRevert r with
              | some s => (Except.error (ExecErr.txReverted s), t2)
              | none => (Except.ok (), t2 ++ [Action.statusMsg "Transaction confirmed."])

/-- A benign environment for concrete engine runs: wallet connected and
on the plan's chain, valid token env addresses, wallet returning hash
`i + 1` for the `i`-th `sendTransaction` call, every receipt observed
successful on the first poll. -/
def idleEnv : ExecEnv :=
  { account := some 1, walletChain := some 84532, switchChainOk := true
    uranoToken := some 3, usdcToken := some 4
    sendTxResult := fun i => some (i + 1)
    pollReceipt := fun h _ => some ⟨some "0x1", h⟩
    balanceOfResult := 0, allowanceResult := 0 }

/-- Calldata of a staking call whose first uint256 argument is 100
(selector `0xa694fc3a`, `stake(uint256)`). -/
def stakeCalldata : List Nat := beDigits 8 0xa694fc3a ++ beDigits 64 100

/-- The "stake 100" scenario plan: `actionType = STAKE`, one staking
transaction whose calldata encodes amount 100. -/
def mkStakePlan (spender : Nat) : AssistantPlan :=
  { id := "s", actionType := ActionType.STAKE, interpretation := "stake 100"
    userMessage := "stake 100", warnings := [], txs := none
    tx := some { chainId := 84532, toAddr := spender, data := stakeCalldata, value := 0 }
    docsUrl := none, supportEmail := none }

/-- Environment for the "stake 100" scenario: no chain switch needed,
balance and allowance reads answering `bal` and `allow`. -/
def mkStakeEnv (owner token bal allow : Nat) : ExecEnv :=
  { account := some owner, walletChain := some 84532, switchChainOk := true
    uranoToken := some token, usdcToken := none
    sendTxResult := fun i => some (i + 1)
    pollReceipt := fun h _ => some ⟨some "0x1", h⟩
    balanceOfResult := bal, allowanceResult := allow }

/-- A VOTE plan with one legacy transaction (no pre-approval branch). -/
def votePlan : AssistantPlan :=
  { id := "v", actionType := ActionType.VOTE, interpretation := "vote"
    userMessage := "vote", warnings := [], txs := none
    tx := some { chainId := 84532, toAddr := 5, data := [], value := 0 }
    docsUrl := none, supportEmail := none }

/-- Environment whose receipts all come back mined but with an absent
`status` field. -/
def noStatusEnv : ExecEnv :=
  { account := some 1, walletChain := some 84532, switchChainOk := true
    uranoToken := none, usdcToken := none
    sendTxResult := fun i => some (i + 1)
    pollReceipt := fun h _ => some ⟨none, h⟩
    balanceOfResult := 0, allowanceResult := 0 }

/-! ### Stream protocol client (`streamChat` in `src/lib/uassistantClient.ts`,
latest snapshot — the variant with `plan` events and the comment/keep-alive
guard)

Decoded text is a list of Unicode code points; `JSON.parse` is an external
builtin and is abstracted as an oracle `jp` returning the parsed value or
`none` for a parse exception. -/

/-- Decoded text: a list of Unicode code points. -/
abbrev Text := List Nat

/-- Code points of a Lean string literal. -/
def cp (s : String) : Text := s.toList.map Char.toNat

/-- JavaScript `\s` / `trim` whitespace: tab through carriage return,
space, no-break space, and the Unicode space separators, line separators
and BOM. -/
def isJsWs (c : Nat) : Bool :=
  c = 9 || c = 10 || c = 11 || c = 12 || c = 13 || c = 32 || c = 160 ||
  c = 0x1680 || (0x2000 ≤ c && c ≤ 0x200A) || c = 0x2028 || c = 0x2029 ||
  c = 0x202F || c = 0x205F || c = 0x3000 || c = 0xFEFF

/-- `String.prototype.trimStart`. -/
def trimStartT (t : Text) : Text := t.dropWhile isJsWs

/-- `String.prototype.trimEnd`. -/
def trimEndT (t : Text) : Text := (t.reverse.dropWhile isJsWs).reverse

/-- `String.prototype.trim`. -/
def trimT (t : Text) : Text := trimStartT (trimEndT t)

/-- `block.split("\n")`. -/
def splitNl : Text → List Text
  | [] => [[]]
  | c :: rest =>
    if c = 10 then [] :: splitNl rest
    else
      match splitNl rest with
      | [] => [[c]]
      | t :: ts => (c :: t) :: ts

/-- `lines.join("\n")`. -/
def joinNl : List Text → Text
  | [] => []
  | [t] => t
  | t :: ts => t ++ 10 :: joinNl ts

/-- JSON values, as produced by the abstracted `JSON.parse`. -/
inductive Json where
  | null
  | bool (b : Bool)
  | num (n : Int)
  | str (s : Text)
  | arr (elems : List Json)
  | obj (fields : List (Text × Json))

/-- JavaScript property access `j.k` on a parsed value: a field of an
object, `none` (undefined) otherwise. -/
def Json.get (j : Json) (k : Text) : Option Json :=
  match j with
  | Json.obj fields => (fields.find? (fun f => f.1 == k)).map (fun f => f.2)
  | _ => none

/-- The nullish-coalescing `v ?? d` on a property lookup. -/
def nullishGetD (v : Option Json) (d : Json) : Json :=
  match v with
  | none => d
  | some Json.null => d
  | some x => x

/-- The typed events the client hands to `onEvent`.  Payload-derived
positions carry the raw parsed values, as the source performs no
validation beyond what `flushBlock` itself does. -/
inductive StreamEvent where
  | ready (id : Option Json)
  | plan (plan : Json)
  | delta (delta : Json)
  | done
  | error (code : Json) (message : Option Json)

/-- The `/^\s*:\s*/m` test guarding `flushBlock` (latest snapshot):
some line of the block, after leading whitespace, starts with a colon. -/
def hasCommentLine (block : Text) : Bool :=
  (splitNl block).any (fun l =>
    match trimStartT l with
    | c :: _ => c = 58
    | [] => false)

/-- `flushBlock` from the latest `streamChat`: drops comment/keep-alive
blocks, collects the last `event:` line and the `data:` lines, joins and
trims the payload, resolves the event name against the persisted
`currentEvent`, and emits the decoded `StreamEvent`s. -/
def flushBlock (jp : Text → Option Json) (currentEvent : Option Text)
    (block : Text) : List StreamEvent :=
  if hasCommentLine block then []
  else
    let lines := splitNl block
    let ev : Option Text :=
      ((lines.filter (fun l => (cp "event:").isPrefixOf l)).getLast?).map
        (fun l => trimT (l.drop 6))
    let dataLines : List Text :=
      (lines.filter (fun l =>
          !((cp "event:").isPrefixOf l) && (cp "data:").isPrefixOf l)).map
        (fun l => trimStartT (l.drop 5))
    let dataRaw := trimT (joinNl dataLines)
    let eventName :=
      trimT (match ev with
        | some v => v
        | none => match currentEvent with
          | some v => v
          | none => [])
    if eventName = [] then []
    else if eventName = cp "ready" then
      match (if dataRaw = [] then some (Json.obj []) else jp dataRaw) with
      | some j => [StreamEvent.ready (j.get (cp "id"))]
      | none => [StreamEvent.ready none]
    else if eventName = cp "plan" then
      match jp dataRaw with
      | some j => [StreamEvent.plan j]
      | none => [StreamEvent.error (Json.str (cp "BAD_PLAN_EVENT"))
                   (some (Json.str (cp "Could not parse plan payload.")))]
    else if eventName = cp "delta" then
      match jp dataRaw with
      | some j => [StreamEvent.delta (nullishGetD (j.get (cp "delta")) (Json.str []))]
      | none => [StreamEvent.delta (Json.str dataRaw)]
    else if eventName = cp "done" then [StreamEvent.done]
    else if eventName = cp "error" then
      match jp dataRaw with
      | some j => [StreamEvent.error (nullishGetD (j.get (cp "error"))
                     (Json.str (cp "ERROR"))) (j.get (cp "message"))]
      | none => [StreamEvent.error (Json.str (cp "ERROR"))
                   (some (Json.str dataRaw))]
    else []

/-- One backtracking attempt of `\s*(.+)$` at offset `k`: `.+` must start
with a non-newline character and greedily runs to the end of the line. -/
def evTryK (rest : Text) (k : Nat) : Option Text :=
  match rest.drop k with
  | [] => none
  | c :: cs =>
    if c = 10 then none
    else some ((c :: cs).takeWhile (fun x => !(x == 10)))

/-- Greedy backtracking of `\s*` from offset `k` down to 0. -/
def evBacktrack (rest : Text) : Nat → Option Text
  | 0 => evTryK rest 0
  | k + 1 =>
    match evTryK rest (k + 1) with
    | some v => some v
    | none => evBacktrack rest k

/-- Capture of `\s*(.+)$` applied right after an `event:` anchor: the
whitespace run is consumed greedily (it may span newlines, `\s` matches
them), backtracking until `.+` can match. -/
def evCapture (rest : Text) : Option Text :=
  evBacktrack rest (rest.takeWhile isJsWs).length

/-- The first line-start anchor of `/^event:\s*(.+)$/m` that matches,
returning the captured group. -/
def findEventCapture : Text → Option Text
  | [] => none
  | c :: rest =>
    let here :=
      if (cp "event:").isPrefixOf (c :: rest) then evCapture ((c :: rest).drop 6)
      else none
    match here with
    | some v => some v
    | none => findEventCapture ((rest.dropWhile (fun x => !(x == 10))).drop 1)
termination_by t => t.length
decreasing_by
  have hle := (List.dropWhile_sublist (fun x => !(x == 10)) (l := rest)).length_le
  simp only [List.length_drop, List.length_cons]
  omega

/-- `block.includes(needle)`: substring containment. -/
def containsSub (needle : Text) : Text → Bool
  | [] => needle.isEmpty
  | c :: rest => needle.isPrefixOf (c :: rest) || containsSub needle rest

/-- The `currentEvent` update of the read loop: when the block contains
`"event:"`, `currentEvent = m?.[1]?.trim() ?? currentEvent` with `m` the
first `/^event:\s*(.+)$/m` match. -/
def updateCurrentEvent (currentEvent : Option Text) (block : Text) : Option Text :=
  if containsSub (cp "event:") block then
    match findEventCapture block with
    | some v => some (trimT v)
    | none => currentEvent
  else currentEvent

/-- `buf.indexOf("\n\n")`: leftmost index of two consecutive newlines,
`none` for `-1`. -/
def findSep : Text → Option Nat
  | [] => none
  | [_] => none
  | a :: b :: rest =>
    if a = 10 ∧ b = 10 then some 0
    else (findSep (b :: rest)).map (fun i => i + 1)

/-- State of the SSE framing loop: pending buffer, persisted event name,
events emitted so far. -/
structure SseState where
  buf : Text
  currentEvent : Option Text
  events : List StreamEvent

/-- The inner `while ((idx = buf.indexOf("\n\n")) !== -1)` loop: extract
and trim the block, advance the buffer, update `currentEvent`, and flush
non-blank blocks. -/
def processBuf (jp : Text → Option Json) (st : SseState) : SseState :=
  match h : findSep st.buf with
  | none => st
  | some idx =>
    let block := trimEndT (st.buf.take idx)
    let ce := updateCurrentEvent st.currentEvent block
    let evs := if trimT block = [] then [] else flushBlock jp ce block
    processBuf jp { buf := st.buf.drop (idx + 2), currentEvent := ce,
                    events := st.events ++ evs }
termination_by st.buf.length
decreasing_by
  have hne : st.buf ≠ [] := by
    intro hb
    rw [hb] at h
    simp [findSep] at h
  have hpos : 0 < st.buf.length := List.length_pos.mpr hne
  simp only [List.length_drop]
  omega

/-- Appending one decoded chunk of text and draining the buffer. -/
def processText (jp : Text → Option Json) (st : SseState) (t : Text) : SseState :=
  processBuf jp { st with buf := st.buf ++ t }

/-- WHATWG-style incremental UTF-8 decoder state (what
`TextDecoder("utf-8")` with `stream: true` keeps between chunks). -/
structure Utf8State where
  codepoint : Nat
  needed : Nat
  seen : Nat
  lowerB : Nat
  upperB : Nat
  deriving DecidableEq

/-- Fresh decoder state. -/
def utf8Init : Utf8State := ⟨0, 0, 0, 0x80, 0xBF⟩

/-- Decoder step on a byte when no sequence is pending. -/
def utf8Start (b : Nat) : Utf8State × Text :=
  if b ≤ 0x7F then (utf8Init, [b])
  else if 0xC2 ≤ b ∧ b ≤ 0xDF then
    ({ codepoint := b % 32, needed := 1, seen := 0, lowerB := 0x80, upperB := 0xBF }, [])
  else if 0xE0 ≤ b ∧ b ≤ 0xEF then
    ({ codepoint := b % 16, needed := 2, seen := 0,
       lowerB := if b = 0xE0 then 0xA0 else 0x80,
       upperB := if b = 0xED then 0x9F else 0xBF }, [])
  else if 0xF0 ≤ b ∧ b ≤ 0xF4 then
    ({ codepoint := b % 8, needed := 3, seen := 0,
       lowerB := if b = 0xF0 then 0x90 else 0x80,
       upperB := if b = 0xF4 then 0x8F else 0xBF }, [])
  else (utf8Init, [0xFFFD])

/-- Decoder step on one byte (non-fatal mode: errors emit U+FFFD; an
invalid continuation byte is reprocessed from the fresh state). -/
def utf8Byte (s : Utf8State) (b : Nat) : Utf8State × Text :=
  if s.needed = 0 then utf8Start b
  else if s.lowerB ≤ b ∧ b ≤ s.upperB then
    let cpv := s.codepoint * 64 + b % 64
    if s.seen + 1 = s.needed then (utf8Init, [cpv])
    else ({ codepoint := cpv, needed := s.needed, seen := s.seen + 1,
            lowerB := 0x80, upperB := 0xBF }, [])
  else
    let r := utf8Start b
    (r.1, 0xFFFD :: r.2)

/-- `decoder.decode(value, { stream: true })`: fold the decoder over the
chunk's bytes, collecting the emitted code points. -/
def utf8Chunk : Utf8State → List Nat → Utf8State × Text
  | s, [] => (s, [])
  | s, b :: rest =>
    let r := utf8Byte s b
    let r2 := utf8Chunk r.1 rest
    (r2.1, r.2 ++ r2.2)

/-- Full client state: decoder state plus framing state. -/
structure StreamChatState where
  dec : Utf8State
  sse : SseState

/-- One iteration of the `streamChat` read loop on a received byte chunk:
decode (streaming), append to the buffer, drain complete blocks. -/
def processChunk (jp : Text → Option Json) (st : StreamChatState)
    (bytes : List Nat) : StreamChatState :=
  let r := utf8Chunk st.dec bytes
  { dec := r.1, sse := processText jp st.sse r.2 }

/-- The whole read loop over a sequence of chunks. -/
def processChunks (jp : Text → Option Json) (st : StreamChatState)
    (chunks : List (List Nat)) : StreamChatState :=
  chunks.foldl (processChunk jp) st

/-- Client state at stream open: fresh decoder, empty buffer, no
persisted event name, no events. -/
def streamChatInit : StreamChatState := ⟨utf8Init, ⟨[], none, []⟩⟩

/-! ### Conversation state (`UranoWidget.tsx`: `Msg`, `startStreaming`'s
`onEvent`, `buildPayload`) -/

/-- `MsgRole` of the widget message list. -/
inductive MsgRole
  | assistant | user | system | error
  deriving DecidableEq

/-- A widget message (`Msg`). -/
structure Msg where
  id : String
  role : MsgRole
  text : String
  plan : Option AssistantPlan
  deriving DecidableEq

/-- The typed `StreamEvent` as consumed by the widget's `onEvent`
handler (string payloads, per the client's TS types). -/
inductive WStreamEvent
  | ready (id : Option String)
  | plan (plan : AssistantPlan)
  | delta (delta : String)
  | done
  | error (error : String) (message : Option String)

/-- The state the `onEvent` closure of `startStreaming` operates on: the
message list and the `planReceived` flag. -/
structure ConvState where
  msgs : List Msg
  planReceived : Bool
  deriving DecidableEq

/-- The formatted text of the separate error message pushed by the
`error` branch: `Assistant error: ${evt.error}${evt.message ? ` — ` : ""}`
(an empty `message` string is falsy and adds no suffix). -/
def assistantErrorText (e : String) (message : Option String) : String :=
  "Assistant error: " ++ e ++
    (match message with
     | some s => if s = "" then "" else " — " ++ s
     | none => "")

/-- The `onEvent` handler of `startStreaming` in the latest
`UranoWidget.tsx`: `plan` replaces the open assistant message's text with
`plan.userMessage` and attaches the plan only when actionable (detaching
otherwise) and sets `planReceived`; `delta` is ignored once a plan was
received (or attached) and otherwise appends; `error` pushes a separate
error-role message (with fresh id `newId`) and leaves every existing
message untouched. -/
def onStreamEvent (assistantId newId : String) (st : ConvState)
    (evt : WStreamEvent) : ConvState :=
  match evt with
  | WStreamEvent.plan p =>
    { msgs := st.msgs.map (fun m =>
        if m.id = assistantId then
          if isActionablePlan p then { m with text := p.userMessage, plan := some p }
          else { m with text := p.userMessage, plan := none }
        else m),
      planReceived := true }
  | WStreamEvent.delta d =>
    if st.planReceived then st
    else if d = "" then st
    else
      { st with msgs := st.msgs.map (fun m =>
          if m.id = assistantId then
            if m.plan.isSome then m else { m with text := m.text ++ d }
          else m) }
  | WStreamEvent.error e message =>
    { st with msgs := st.msgs ++
        [{ id := newId, role := MsgRole.error,
           text := assistantErrorText e message, plan := none }] }
  | _ => st

/-- `MAX_HISTORY = 30`. -/
def MAX_HISTORY : Nat := 30

/-- Wire `ChatMessage` (role restricted to user/assistant by the cast in
`buildPayload`; the role is kept as-is here). -/
structure ChatMessage where
  role : MsgRole
  content : String
  deriving DecidableEq

/-- `buildPayload` from the latest `UranoWidget.tsx`: filter to chat
roles, then `.slice(Math.max(0, nextMsgs.length - MAX_HISTORY))` — note
the slice start is computed from the *unfiltered* `nextMsgs.length`. -/
def buildPayload (nextMsgs : List Msg) : List ChatMessage :=
  ((nextMsgs.filter (fun m =>
      decide (m.role = MsgRole.user) || decide (m.role = MsgRole.assistant))).drop
    (nextMsgs.length - MAX_HISTORY)).map
    (fun m => { role := m.role, content := m.text })

/-- A history of 31 messages: one error-role message followed by 30 chat
(user-role) messages. -/
def historyWithError : List Msg :=
  ⟨"e", MsgRole.error, "boom", none⟩ ::
    (List.range 30).map (fun _ => ⟨"u", MsgRole.user, "hello", none⟩)

/-- A conversation whose single message is the open assistant message
with no accumulated text. -/
def emptyAssistantConv : ConvState :=
  ⟨[⟨"a", MsgRole.assistant, "", none⟩], false⟩

end UDapp

namespace UDapp

theorem beDigits_length (k n : Nat) : (beDigits k n).length = k := by
  simp [beDigits]

theorem beDigits_succ (k n : Nat) :
    beDigits (k + 1) n = (n / 16 ^ k % 16) :: beDigits k n := by
  simp only [beDigits, List.range_succ_eq_map, List.map_cons, List.map_map]
  congr 1
  apply List.map_congr_left
  intro a ha
  have h : k - (a + 1) = k - 1 - a := by omega
  simp [Function.comp_apply, h]

theorem fromBeDigits_cons (d : Nat) (ds : List Nat) :
    fromBeDigits (d :: ds) = d * 16 ^ ds.length + fromBeDigits ds := by
  suffices h : ∀ (ds : List Nat) (a : Nat),
      ds.foldl (fun acc d => acc * 16 + d) a =
        a * 16 ^ ds.length + ds.foldl (fun acc d => acc * 16 + d) 0 by
    simp only [fromBeDigits, List.foldl_cons]
    rw [h ds (0 * 16 + d)]
    ring_nf
  intro ds
  induction ds with
  | nil => intro a; simp
  | cons e es ih =>
    intro a
    simp only [List.foldl_cons, List.length_cons]
    rw [ih (a * 16 + e), ih (0 * 16 + e)]
    ring

theorem fromBeDigits_beDigits (k n : Nat) :
    fromBeDigits (beDigits k n) = n % 16 ^ k := by
  induction k with
  | zero => simp [beDigits, fromBeDigits, Nat.mod_one]
  | succ k ih =>
    rw [beDigits_succ, fromBeDigits_cons, beDigits_length, ih,
      pow_succ, Nat.mod_mul]
    ring

theorem fromBeDigits_beDigits_of_lt {k n : Nat} (h : n < 16 ^ k) :
    fromBeDigits (beDigits k n) = n := by
  rw [fromBeDigits_beDigits, Nat.mod_eq_of_lt h]

/-- **C1** (corrected). The first 32-byte word of the calldata produced by
`encodeErc20Approve(spender, amount)` is the *spender*, not the amount:
`decodeFirstUint256Arg` on that calldata returns the numeric value of the
spender address.  The amount occupies the second 32-byte word (digits
72..135), recovered by `fromBeDigits` on that slice. -/
theorem decodeFirstUint256Arg_encodeErc20Approve
    (spender amount : Nat) (hs : spender < 2 ^ 160) (ha : amount < 2 ^ 256) :
    decodeFirstUint256Arg (encodeErc20Approve spender amount) = some spender ∧
    fromBeDigits (((encodeErc20Approve spender amount).drop 72).take 64) =
      amount := by
  have hs' : spender < 16 ^ 64 := lt_of_lt_of_le hs (by norm_num)
  have ha' : amount < 16 ^ 64 := lt_of_lt_of_le ha (by norm_num)
  have hlen8 : (beDigits 8 0x095ea7b3).length = 8 := beDigits_length ..
  have hlen64 : (beDigits 64 spender).length = 64 := beDigits_length ..
  constructor
  · rw [decodeFirstUint256Arg]
    rw [encodeErc20Approve]
    have hdrop : ((beDigits 8 0x095ea7b3 ++ beDigits 64 spender ++
        beDigits 64 amount).drop 8) = beDigits 64 spender ++ beDigits 64 amount := by
      rw [List.append_assoc, List.drop_append_of_le_length (by rw [hlen8])]
      simp [hlen8]
    have htake : ((beDigits 64 spender ++ beDigits 64 amount).take 64) =
        beDigits 64 spender := by
      rw [List.take_append_of_le_length (by rw [hlen64])]
      simp [hlen64]
    rw [if_neg (by simp [encodeErc20Approve, beDigits_length])] at *
    · rw [hdrop, htake, fromBeDigits_beDigits_of_lt hs']
  · rw [encodeErc20Approve]
    have hdrop : ((beDigits 8 0x095ea7b3 ++ beDigits 64 spender ++
        beDigits 64 amount).drop 72) = beDigits 64 amount := by
      rw [List.drop_append_of_le_length (by simp [hlen8, hlen64])]
      simp [hlen8, hlen64]
    rw [hdrop, List.take_of_length_le (by simp [beDigits_length]),
      fromBeDigits_beDigits_of_lt ha']

/-- Witness for C1's amended theorem at `spender = 1`, `amount = 2`. -/
theorem decodeFirstUint256Arg_encodeErc20Approve_witness :
    decodeFirstUint256Arg (encodeErc20Approve 1 2) = some 1 ∧
    fromBeDigits (((encodeErc20Approve 1 2).drop 72).take 64) = 2 :=
  decodeFirstUint256Arg_encodeErc20Approve 1 2 (by norm_num) (by norm_num)

set_option maxRecDepth 8000 in
/-- **C1** counterexample: the claim says the round-trip returns the
amount; at `spender = 1`, `amount = 2` it returns `1` (the spender), not
`2`. -/
theorem decodeFirstUint256Arg_encodeErc20Approve_cex :
    decodeFirstUint256Arg (encodeErc20Approve 1 2) ≠ some 2 := by
  decide

/-- **C2** (corrected).  `isActionablePlan` consults only the legacy `tx`
field: a plan is actionable iff `tx` is present and `actionType` is
neither QUESTION nor UNSUPPORTED; consequently a plan with empty (or
absent) `txs` and null `tx` is never actionable, for every action type. -/
theorem isActionablePlan_spec (plan : AssistantPlan) :
    (isActionablePlan plan = true ↔
      (plan.tx.isSome = true ∧ plan.actionType ≠ ActionType.QUESTION ∧
        plan.actionType ≠ ActionType.UNSUPPORTED)) ∧
    ((plan.txs = none ∨ plan.txs = some []) → plan.tx = none →
      isActionablePlan plan = false) := by
  constructor
  · unfold isActionablePlan
    cases htx : plan.tx with
    | none => simp [htx]
    | some t =>
      simp only [htx, Option.isNone_some, Bool.false_eq_true, if_false,
        Option.isSome_some, true_and]
      split_ifs with h1 h2 <;> simp_all
  · intro _ htx
    unfold isActionablePlan
    rw [htx]
    simp

/-- Witness for C2's amended theorem: the all-empty plan is not
actionable. -/
theorem isActionablePlan_spec_witness :
    isActionablePlan emptyTxPlan = false :=
  (isActionablePlan_spec emptyTxPlan).2 (Or.inr rfl) rfl

/-- **C2** counterexample: for the plan carrying one transaction in `txs`
and a null legacy `tx`, the claimed equivalence between the code's
predicate and "has a transaction and a transactable action type" fails —
the code returns `false`, the claim says actionable. -/
theorem isActionablePlan_cex :
    ¬ (isActionablePlan multiTxOnlyPlan = true ↔
        specActionable multiTxOnlyPlan = true) := by
  decide

theorem nextDelay_values :
    nextDelay 1200 = 1380 ∧ nextDelay 1380 = 1586 ∧ nextDelay 1586 = 1823 ∧
    nextDelay 1823 = 2000 ∧ nextDelay 2000 = 2000 := by
  decide

theorem delayList_succ (d k : Nat) :
    (List.range (k + 1)).map (fun t => nextDelay^[t] d) =
      d :: (List.range k).map (fun t => nextDelay^[t] (nextDelay d)) := by
  rw [List.range_succ_eq_map, List.map_cons, List.map_map]
  simp [Function.comp_def, Function.iterate_succ_apply]

theorem waitForReceiptAux_found (poll : Nat → Option RpcReceipt)
    (k : Nat) (r : RpcReceipt) :
    ∀ (fuel i d : Nat), k < fuel → (∀ j, j < k → poll (i + j) = none) →
    poll (i + k) = some r →
    waitForReceiptAux poll fuel i d =
      (Except.ok (i + k, r), (List.range k).map (fun t => nextDelay^[t] d)) := by
  induction k with
  | zero =>
    intro fuel i d hk _ hfound
    cases fuel with
    | zero => omega
    | succ fuel =>
      simp only [Nat.add_zero] at hfound
      simp [waitForReceiptAux, hfound]
  | succ k ih =>
    intro fuel i d hk hnull hfound
    cases fuel with
    | zero => omega
    | succ fuel =>
      have h0 : poll i = none := by simpa using hnull 0 (by omega)
      have hrec := ih fuel (i + 1) (nextDelay d) (by omega)
        (fun j hj => by
          have := hnull (j + 1) (by omega)
          simpa [Nat.add_assoc, Nat.add_comm 1 j] using this)
        (by
          have : i + 1 + k = i + (k + 1) := by omega
          rw [this]; exact hfound)
      have hidx : i + 1 + k = i + (k + 1) := by omega
      simp only [waitForReceiptAux, h0, hrec, delayList_succ, hidx]

theorem waitForReceiptAux_timeout (poll : Nat → Option RpcReceipt) :
    ∀ (fuel i d : Nat), (∀ j, j < fuel → poll (i + j) = none) →
    waitForReceiptAux poll fuel i d =
      (Except.error (), (List.range fuel).map (fun t => nextDelay^[t] d)) := by
  intro fuel
  induction fuel with
  | zero => intro i d _; simp [waitForReceiptAux]
  | succ fuel ih =>
    intro i d hnull
    have h0 : poll i = none := by simpa using hnull 0 (by omega)
    have hrec := ih (i + 1) (nextDelay d)
      (fun j hj => by
        have := hnull (j + 1) (by omega)
        simpa [Nat.add_assoc, Nat.add_comm 1 j] using this)
    simp only [waitForReceiptAux, h0, hrec, delayList_succ]

/-- **C7** (confirmed).  `waitForReceipt` performs at most 60 polling
attempts; it returns the receipt of the first attempt that observes a
non-null receipt — including the very first, whatever the receipt's
status — having slept the delays `1200, nextDelay 1200, …` (1200 ms,
then `min(2000, floor(d·1.15))` in exact binary64 arithmetic, i.e.
1200, 1380, 1586, 1823, 2000, 2000, …) once per null attempt; and if all
60 attempts observe null it fails with the receipt-timeout error after 60
sleeps. -/
theorem waitForReceipt_spec :
    (∀ (poll : Nat → Option RpcReceipt) (i : Nat) (r : RpcReceipt),
        i < 60 → (∀ j, j < i → poll j = none) → poll i = some r →
        waitForReceipt poll =
          (Except.ok (i, r), (List.range i).map (fun k => nextDelay^[k] 1200))) ∧
    (∀ poll : Nat → Option RpcReceipt,
        (∀ j, j < 60 → poll j = none) →
        waitForReceipt poll =
          (Except.error (), (List.range 60).map (fun k => nextDelay^[k] 1200))) := by
  constructor
  · intro poll i r hi hnull hfound
    have := waitForReceiptAux_found poll i r 60 0 1200 hi
      (fun j hj => by simpa using hnull j hj) (by simpa using hfound)
    simpa [waitForReceipt] using this
  · intro poll hnull
    exact waitForReceiptAux_timeout poll 60 0 1200
      (fun j hj => by simpa using hnull j hj)

theorem range_one_eq : List.range 1 = [0] := by
  decide

theorem waitForReceipt_first (poll : Nat → Option RpcReceipt) (r : RpcReceipt)
    (h : poll 0 = some r) :
    waitForReceipt poll = (Except.ok (0, r), []) := by
  have := waitForReceiptAux_found poll 0 r 60 0 1200 (by omega)
    (fun j hj => absurd hj (by omega)) (by simpa using h)
  simpa [waitForReceipt] using this

/-- Witness for C7: a receipt with revert status observed on the very
first attempt is returned at once with no sleeps, and the all-null oracle
times out after 60 sleeps. -/
theorem waitForReceipt_spec_witness :
    waitForReceipt (fun _ => some ⟨some "0x0", 7⟩) =
      (Except.ok (0, ⟨some "0x0", 7⟩), []) ∧
    waitForReceipt (fun _ => none) =
      (Except.error (), (List.range 60).map (fun k => nextDelay^[k] 1200)) := by
  constructor
  · exact waitForReceipt_spec.1 (fun _ => some ⟨some "0x0", 7⟩) 0 ⟨some "0x0", 7⟩
      (by omega) (fun j hj => by omega) rfl
  · exact waitForReceipt_spec.2 (fun _ => none) (fun j hj => rfl)

/-- **C3** (corrected).  The engine works only with the legacy single
`plan.tx` — it never consults `txs`; whenever `plan.tx` is absent it
fails with the no-transactions error as its very first step, with an
empty action trace (no chain switch, no signing call, no RPC read), for
every environment. -/
theorem sendPlanToWallet_noTransactions (env : ExecEnv) (plan : AssistantPlan)
    (h : plan.tx = none) :
    sendPlanToWallet env plan = (Except.error ExecErr.noTransactions, []) := by
  unfold sendPlanToWallet
  rw [h]

/-- Witness for C3's amended theorem at the empty plan. -/
theorem sendPlanToWallet_noTransactions_witness :
    sendPlanToWallet idleEnv emptyTxPlan =
      (Except.error ExecErr.noTransactions, []) :=
  sendPlanToWallet_noTransactions idleEnv emptyTxPlan rfl

/-- **C3** counterexample: for a plan whose `txs` holds one transaction
but whose legacy `tx` is null, the claim says the working list is `txs`;
the engine instead fails with the no-transactions error and performs no
action at all. -/
theorem sendPlanToWallet_txs_ignored_cex :
    (multiTxOnlyPlan.txs.getD []) ≠ [] ∧
    sendPlanToWallet idleEnv multiTxOnlyPlan =
      (Except.error ExecErr.noTransactions, []) := by
  constructor
  · decide
  · rfl

set_option maxRecDepth 8000 in
theorem decode_stakeCalldata : decodeFirstUint256Arg stakeCalldata = some 100 := by
  decide

/-- **C4** (confirmed).  In the "stake 100" scenario (STAKE plan, one
staking transaction whose calldata's first uint256 argument is 100, no
pre-existing approval logic in the engine), the full action trace is:
approval submission for exactly 100, the approval's receipt poll, the
balance and allowance pre-flight reads, and only then the staking
transaction submission — strictly in that order. -/
theorem sendPlanToWallet_stake_order (owner token spender bal allow : Nat)
    (hb : 100 ≤ bal) (ha : 100 ≤ allow) :
    sendPlanToWallet (mkStakeEnv owner token bal allow) (mkStakePlan spender) =
      (Except.ok (),
       [Action.statusMsg "Preparing approval…",
        Action.sendTx token (encodeErc20Approve spender 100) 0,
        Action.receiptPoll 1 0,
        Action.statusMsg "Approval confirmed.",
        Action.readCall token (encodeBalanceOf owner),
        Action.readCall token (encodeAllowance owner spender),
        Action.statusMsg "Preparing transaction…",
        Action.sendTx spender stakeCalldata 0,
        Action.receiptPoll 2 0,
        Action.statusMsg "Transaction confirmed."]) := by
  have hb' : ¬ (bal < 100) := Nat.not_lt.mpr hb
  have ha' : ¬ (allow < 100) := Nat.not_lt.mpr ha
  have hwr : ∀ hsh : Nat,
      waitForReceipt (fun _ => some (⟨some "0x1", hsh⟩ : RpcReceipt)) =
        (Except.ok (0, ⟨some "0x1", hsh⟩), []) :=
    fun hsh => waitForReceipt_first _ _ rfl
  simp [sendPlanToWallet, mkStakeEnv, mkStakePlan, stakePreApproval,
    decode_stakeCalldata, receiptRevert, pollTrace, range_one_eq, hb', ha', hwr]

/-- Witness for C4 at concrete owner 1, token 3, spender 2, balance and
allowance 100. -/
theorem sendPlanToWallet_stake_order_witness :
    sendPlanToWallet (mkStakeEnv 1 3 100 100) (mkStakePlan 2) =
      (Except.ok (),
       [Action.statusMsg "Preparing approval…",
        Action.sendTx 3 (encodeErc20Approve 2 100) 0,
        Action.receiptPoll 1 0,
        Action.statusMsg "Approval confirmed.",
        Action.readCall 3 (encodeBalanceOf 1),
        Action.readCall 3 (encodeAllowance 1 2),
        Action.statusMsg "Preparing transaction…",
        Action.sendTx 2 stakeCalldata 0,
        Action.receiptPoll 2 0,
        Action.statusMsg "Transaction confirmed."]) :=
  sendPlanToWallet_stake_order 1 3 2 100 100 (by omega) (by omega)

/-- **C10** (confirmed).  A mined receipt with an absent `status` field
is treated as success: the revert check passes whenever `status` is
absent, and a run whose receipts all lack `status` proceeds past the
check and reports the transaction confirmed. -/
theorem absentStatus_treated_success :
    (∀ r : RpcReceipt, r.status = none → receiptRevert r = none) ∧
    sendPlanToWallet noStatusEnv votePlan =
      (Except.ok (),
       [Action.statusMsg "Preparing transaction…",
        Action.sendTx 5 [] 0,
        Action.receiptPoll 1 0,
        Action.statusMsg "Transaction confirmed."]) := by
  constructor
  · intro r h
    simp [receiptRevert, h]
  · have hwr := waitForReceipt_first (fun _ => some (⟨none, 1⟩ : RpcReceipt))
      ⟨none, 1⟩ rfl
    simp [sendPlanToWallet, noStatusEnv, votePlan, receiptRevert, pollTrace, range_one_eq, hwr]

/-- Witness for C10 at a concrete status-less receipt. -/
theorem absentStatus_treated_success_witness :
    receiptRevert ⟨none, 0⟩ = none :=
  absentStatus_treated_success.1 ⟨none, 0⟩ rfl

end UDapp

namespace UDapp

theorem findSep_bound : ∀ (l : Text) (i : Nat), findSep l = some i → i + 2 ≤ l.length := by
  intro l
  induction l with
  | nil => intro i h; simp [findSep] at h
  | cons a rest ih =>
    intro i h
    cases rest with
    | nil => simp [findSep] at h
    | cons b rs =>
      rw [findSep] at h
      by_cases hab : a = 10 ∧ b = 10
      · rw [if_pos hab] at h
        cases h
        simp
      · rw [if_neg hab] at h
        cases hfs : findSep (b :: rs) with
        | none => rw [hfs] at h; simp at h
        | some j =>
          rw [hfs] at h
          simp at h
          have hj := ih j hfs
          simp only [List.length_cons] at hj ⊢
          omega

theorem findSep_append (t : Text) :
    ∀ (l : Text) (i : Nat), findSep l = some i → findSep (l ++ t) = some i := by
  intro l
  induction l with
  | nil => intro i h; simp [findSep] at h
  | cons a rest ih =>
    intro i h
    cases rest with
    | nil => simp [findSep] at h
    | cons b rs =>
      rw [findSep] at h
      simp only [List.cons_append]
      rw [findSep]
      by_cases hab : a = 10 ∧ b = 10
      · rw [if_pos hab] at h ⊢
        exact h
      · rw [if_neg hab] at h ⊢
        cases hfs : findSep (b :: rs) with
        | none => rw [hfs] at h; simp at h
        | some j =>
          rw [hfs] at h
          have hap := ih j hfs
          rw [List.cons_append] at hap
          rw [hap]
          exact h

theorem processBuf_none (jp : Text → Option Json) (st : SseState)
    (h : findSep st.buf = none) : processBuf jp st = st := by
  rw [processBuf]
  split
  · rfl
  · rename_i idx hsome
    rw [h] at hsome
    cases hsome

theorem processBuf_some (jp : Text → Option Json) (st : SseState) (idx : Nat)
    (h : findSep st.buf = some idx) :
    processBuf jp st =
      processBuf jp
        { buf := st.buf.drop (idx + 2),
          currentEvent := updateCurrentEvent st.currentEvent (trimEndT (st.buf.take idx)),
          events := st.events ++
            (if trimT (trimEndT (st.buf.take idx)) = [] then []
             else
               flushBlock jp
                 (updateCurrentEvent st.currentEvent (trimEndT (st.buf.take idx)))
                 (trimEndT (st.buf.take idx))) } := by
  conv_lhs => rw [processBuf]
  split
  · rename_i hnone
    rw [h] at hnone
    cases hnone
  · rename_i idx2 hsome
    rw [h] at hsome
    cases hsome
    rfl

end UDapp

namespace UDapp

theorem processBuf_absorb (jp : Text → Option Json) :
    ∀ (n : Nat) (st : SseState), st.buf.length ≤ n → ∀ t : Text,
      processBuf jp { processBuf jp st with buf := (processBuf jp st).buf ++ t } =
        processBuf jp { st with buf := st.buf ++ t } := by
  intro n
  induction n with
  | zero =>
    intro st hle t
    have hnil : st.buf = [] := List.length_eq_zero.mp (Nat.le_zero.mp hle)
    have h0 : findSep st.buf = none := by rw [hnil]; rfl
    rw [processBuf_none jp st h0]
  | succ n ih =>
    intro st hle t
    cases hfs : findSep st.buf with
    | none =>
      rw [processBuf_none jp st hfs]
    | some idx =>
      have hbound := findSep_bound st.buf idx hfs
      rw [processBuf_some jp st idx hfs]
      have hfs2 : findSep (st.buf ++ t) = some idx := findSep_append t st.buf idx hfs
      rw [processBuf_some jp { st with buf := st.buf ++ t } idx hfs2]
      have htake : (st.buf ++ t).take idx = st.buf.take idx :=
        List.take_append_of_le_length (by omega)
      have hdrop : (st.buf ++ t).drop (idx + 2) = st.buf.drop (idx + 2) ++ t :=
        List.drop_append_of_le_length (by omega)
      simp only [htake, hdrop]
      exact ih _ (by simp only [List.length_drop]; omega) t

theorem processText_comp (jp : Text → Option Json) (st : SseState) (a b : Text) :
    processText jp (processText jp st a) b = processText jp st (a ++ b) := by
  unfold processText
  have habs := processBuf_absorb jp (st.buf ++ a).length { st with buf := st.buf ++ a }
    (Nat.le_refl _) b
  simpa [List.append_assoc] using habs

theorem utf8Chunk_append (s : Utf8State) (a b : List Nat) :
    utf8Chunk s (a ++ b) =
      ((utf8Chunk (utf8Chunk s a).1 b).1,
        (utf8Chunk s a).2 ++ (utf8Chunk (utf8Chunk s a).1 b).2) := by
  induction a generalizing s with
  | nil => simp [utf8Chunk]
  | cons x xs ih =>
    simp only [List.cons_append, utf8Chunk, List.append_eq]
    rw [ih]
    simp [List.append_assoc]

theorem processChunk_comp (jp : Text → Option Json) (st : StreamChatState)
    (a b : List Nat) :
    processChunk jp (processChunk jp st a) b = processChunk jp st (a ++ b) := by
  unfold processChunk
  rw [utf8Chunk_append]
  simp [processText_comp]

theorem processChunk_init_nil (jp : Text → Option Json) :
    processChunk jp streamChatInit [] = streamChatInit := by
  unfold processChunk streamChatInit utf8Chunk
  simp only
  unfold processText
  simp only [List.append_nil, List.nil_append]
  rw [processBuf_none]
  rfl

/-- **C5** (confirmed).  For every byte stream and every way of splitting
it into chunks (at arbitrary byte offsets, including mid-UTF-8-sequence:
the incremental decoder carries partial sequences across chunks), the
client reaches exactly the same state — in particular it emits exactly
the same sequence of `StreamEvent`s in the same order — as when the
entire stream arrives as one chunk. -/
theorem streamChat_chunk_invariant (jp : Text → Option Json)
    (chunks : List (List Nat)) :
    processChunks jp streamChatInit chunks =
      processChunk jp streamChatInit chunks.flatten := by
  induction chunks using List.reverseRecOn with
  | nil =>
    simp only [processChunks, List.foldl_nil, List.flatten]
    exact (processChunk_init_nil jp).symm
  | append_singleton cs c ih =>
    have h1 : processChunks jp streamChatInit (cs ++ [c]) =
        processChunk jp (processChunks jp streamChatInit cs) c := by
      simp [processChunks, List.foldl_append]
    rw [h1, ih, processChunk_comp]
    congr 1
    simp

/-- **C6** (corrected).  In the latest stream client, `flushBlock` first
tests `/^\s*:\s*/m` against the whole block: a block containing *any*
comment line — even interleaved with `event:` and `data:` lines — is
dropped wholesale and emits nothing (rather than the comment line alone
being ignored). -/
theorem flushBlock_comment_dropsBlock (jp : Text → Option Json)
    (currentEvent : Option Text) (block : Text)
    (h : hasCommentLine block = true) :
    flushBlock jp currentEvent block = [] := by
  unfold flushBlock
  rw [if_pos h]

/-- Witness for C6's amended theorem: a delta block with an interleaved
keep-alive comment line emits nothing. -/
theorem flushBlock_comment_dropsBlock_witness :
    flushBlock (fun _ => none) none (cp "event: delta\ndata: hi\n: ping") = [] :=
  flushBlock_comment_dropsBlock (fun _ => none) none
    (cp "event: delta\ndata: hi\n: ping") rfl

/-- **C6** counterexample: the block with the interleaved comment line
emits no event at all, while the same block without the comment emits the
delta event — they are not equal, contradicting the claim. -/
theorem flushBlock_comment_cex :
    flushBlock (fun _ => none) none (cp "event: delta\ndata: hi\n: ping") = [] ∧
    flushBlock (fun _ => none) none (cp "event: delta\ndata: hi") =
      [StreamEvent.delta (Json.str (cp "hi"))] :=
  ⟨rfl, rfl⟩

end UDapp

namespace UDapp

/-- **C8** (corrected).  On an `error` StreamEvent the handler never
touches any existing message — in particular the open assistant
message's text stays exactly as it was, whether empty or not (no apology
text is synthesized) — and surfaces the error as a single separate
error-role message appended at the end, never concatenated into the
assistant's conversational text. -/
theorem errorEvent_separate_message (assistantId newId : String)
    (st : ConvState) (e : String) (message : Option String) :
    (onStreamEvent assistantId newId st (WStreamEvent.error e message)).msgs =
      st.msgs ++ [⟨newId, MsgRole.error, assistantErrorText e message, none⟩] ∧
    (onStreamEvent assistantId newId st (WStreamEvent.error e message)).msgs.take
        st.msgs.length = st.msgs := by
  constructor
  · rfl
  · show (st.msgs ++ _).take st.msgs.length = st.msgs
    simp

/-- **C8** counterexample: the open assistant message has no accumulated
text; after the error event its text is still empty — no synthesized
apology — while the error landed in a separate message. -/
theorem errorEvent_no_apology_cex :
    ((onStreamEvent "a" "n" emptyAssistantConv
        (WStreamEvent.error "X" none)).msgs.map (fun m => (m.id, m.text))) =
      [("a", ""), ("n", "Assistant error: X")] := by
  rfl

set_option maxRecDepth 4000 in
/-- **C9** (code bug).  `buildPayload` filters to chat roles but slices
with the *unfiltered* history length: for a 31-message history holding 30
chat messages and one error-role message, the payload has only 29
entries, dropping the oldest chat message although the last 30 chat-role
messages were all supposed to be sent. -/
theorem buildPayload_slice_bug :
    historyWithError.length = 31 ∧
    (historyWithError.filter (fun m =>
        decide (m.role = MsgRole.user) ||
        decide (m.role = MsgRole.assistant))).length = 30 ∧
    (buildPayload historyWithError).length = 29 := by
  refine ⟨by decide, by decide, by decide⟩

end UDapp
